import Mathlib

/-!
Verification development for the exchange-rate quote service.

The Go source is shallowly embedded:

* Go strings that undergo per-character processing (currency codes, pair
  tokens) are modelled as `List Char` (`GoStr`); the model therefore covers
  exactly the valid-UTF-8 Go strings, and Go's byte-oriented `len` is
  `utf8Len` (the sum of the UTF-8 sizes of the characters).
* Go strings only compared for equality (record ids, error messages) are
  modelled as Lean `String`.
* Strings that flow through `time.Format(time.RFC3339)` /
  `time.Parse(time.RFC3339)` are modelled by `CStr`, which partitions the
  string space by RFC3339-parseability: `CStr.rfc t` stands for the canonical
  RFC3339 rendering of the instant `t` (instants are whole seconds, modelled
  as `Nat`), and `CStr.plain s` stands for a string that does not parse as
  RFC3339.  Go's round-trip `Parse(Format(t)) = t` becomes definitional.
* The PostgreSQL `quotes` table is a list of records plus a logical clock
  standing for `NOW()`; the partial unique index `uniq_quotes_pair_pending`
  and the primary key on `id` are enforced on every statement exactly as the
  database would: a statement whose result state would violate them fails
  with a unique-violation error and changes nothing.
* Redis hashes are association lists; a field read (`HMGet`) yields the
  stored value, `RVal.other` modelling a non-string/non-bytes value; TTL
  expiry of the per-source cache is an explicit `expiresAt` stamp, and for
  the latest-quote cache an expired entry is modelled as an absent one.
-/

namespace QuoteSvc

/-- Equality of `Except` values is decidable when it is on both sides. -/
instance {ε : Type} {α : Type} [DecidableEq ε] [DecidableEq α] :
    DecidableEq (Except ε α) := fun x y =>
  match x, y with
  | .error a, .error b =>
    if h : a = b then isTrue (congrArg Except.error h)
    else isFalse (fun hc => h (Except.error.inj hc))
  | .ok a, .ok b =>
    if h : a = b then isTrue (congrArg Except.ok h)
    else isFalse (fun hc => h (Except.ok.inj hc))
  | .error _, .ok _ => isFalse (fun hc => Except.noConfusion hc)
  | .ok _, .error _ => isFalse (fun hc => Except.noConfusion hc)

/-- Go strings processed character by character. -/
abbrev GoStr := List Char

/-- Go `len` on a (valid-UTF-8) string: total number of UTF-8 bytes. -/
def utf8Len (s : GoStr) : Nat := (s.map Char.utf8Size).sum

/-- U+0131 LATIN SMALL LETTER DOTLESS I, whose Unicode simple uppercase
mapping is ASCII `I`. -/
def dotlessI : Char := Char.ofNat 0x131

/-- U+017F LATIN SMALL LETTER LONG S, whose Unicode simple uppercase mapping
is ASCII `S`. -/
def longS : Char := Char.ofNat 0x17F

/-- Go `unicode.ToUpper` (the per-rune mapping applied by
`strings.ToUpper`), embedded on the fragment the service inspects: it is
exact on ASCII and on the only two code points outside ASCII whose Unicode
simple uppercase mapping is an ASCII letter (U+0131 and U+017F); every other
code point is mapped to itself — its true uppercase is never an ASCII
letter, which is all `IsValidCurrencyCode` looks at. -/
def goToUpperChar (c : Char) : Char :=
  if 'a' ≤ c ∧ c ≤ 'z' then Char.ofNat (c.toNat - 32)
  else if c = dotlessI then 'I'
  else if c = longS then 'S'
  else c

/-- Go `strings.ToUpper`. -/
def goToUpper (s : GoStr) : GoStr := s.map goToUpperChar

/-- `IsValidCurrencyCode` from the service package: byte length must be 3,
then every rune of the uppercased string must lie in `A`–`Z`. -/
def isValidCurrencyCode (code : GoStr) : Bool :=
  if utf8Len code ≠ 3 then false
  else (goToUpper code).all (fun c => decide ('A' ≤ c ∧ c ≤ 'Z'))

/-- Go `strings.Split(s, "/")`. -/
def splitSlash (s : GoStr) : List GoStr :=
  match s with
  | [] => [[]]
  | c :: rest =>
    if c = '/' then [] :: splitSlash rest
    else
      match splitSlash rest with
      | [] => [[c]]
      | g :: gs => (c :: g) :: gs

/-- Service-level error values (the `Err…` variables of the service
package). -/
inductive SvcError
  | invalidPairFormat
  | unsupportedCurrency
  | invalidUpdateID
  | notFound
  | internal
  | internalQueue
deriving DecidableEq

/-- The `error.Error()` message of a validation error, as persisted by
`completeFailure`. -/
def svcErrMsg : SvcError → String
  | .invalidPairFormat => "invalid currency code format"
  | .unsupportedCurrency => "unsupported currency"
  | .invalidUpdateID => "invalid update_id"
  | .notFound => "not found"
  | .internal => "internal error"
  | .internalQueue => "internal queue error"

/-- `ParsePair`: split on `/`, validate both halves, uppercase them. -/
def parsePair (pair : GoStr) : Except SvcError (GoStr × GoStr) :=
  match splitSlash pair with
  | [b, q] =>
    if isValidCurrencyCode b && isValidCurrencyCode q then
      .ok (goToUpper b, goToUpper q)
    else .error .invalidPairFormat
  | _ => .error .invalidPairFormat

/-- `normalizePair`: validate both codes, uppercase them. -/
def normalizePair (base quote : GoStr) : Except SvcError (GoStr × GoStr) :=
  if isValidCurrencyCode base && isValidCurrencyCode quote then
    .ok (goToUpper base, goToUpper quote)
  else .error .invalidPairFormat

/-- The static allow-list from `validator.go`. -/
def supportedCurrencies : List GoStr :=
  [("USD").toList, ("EUR").toList, ("GBP").toList, ("JPY").toList,
   ("CHF").toList, ("CAD").toList, ("AUD").toList, ("NZD").toList,
   ("CNY").toList, ("HKD").toList, ("SGD").toList, ("SEK").toList,
   ("NOK").toList, ("INR").toList, ("MXN").toList]

/-- `validator.IsSupported`: membership of the uppercased code in the
allow-list. -/
def isSupported (code : GoStr) : Bool :=
  supportedCurrencies.any (fun s => decide (s = goToUpper code))

/-- `validator.Validate`. -/
def validateCode (code : GoStr) : Except SvcError Unit :=
  if isSupported code then .ok () else .error .unsupportedCurrency

/-- `QuoteService.validatePair`: validate base, then quote. -/
def validatePair (base quote : GoStr) : Except SvcError Unit :=
  match validateCode base with
  | .error e => .error e
  | .ok _ => validateCode quote

/-- Go strings classified by RFC3339 parseability (see the file comment):
`rfc t` is the canonical `time.Format(time.RFC3339)` rendering of instant
`t`, `plain s` a string that `time.Parse(time.RFC3339)` rejects. -/
inductive CStr
  | rfc (t : Nat)
  | plain (s : String)
deriving DecidableEq

/-- `time.Time.Format(time.RFC3339)` on the model's instants. -/
def formatRFC3339 (t : Nat) : CStr := .rfc t

/-- `time.Parse(time.RFC3339)` (the service's `timeParse`). -/
def parseRFC3339 : CStr → Option Nat
  | .rfc t => some t
  | .plain _ => none

/-- A value read from a Redis hash field: a string, a byte slice, or a value
of any other dynamic type. -/
inductive RVal
  | str (s : CStr)
  | bytes (s : CStr)
  | other
deriving DecidableEq

/-- The service's `asString`: strings and byte slices convert, anything else
fails. -/
def asString : RVal → Option CStr
  | .str s => some s
  | .bytes s => some s
  | .other => none

/-! ## Quote store (PostgreSQL repository) -/

/-- `repository.Status`. -/
inductive Status
  | pending
  | running
  | success
  | failed
deriving DecidableEq

/-- `status IN ('PENDING','RUNNING')` — the scope of the partial unique
index `uniq_quotes_pair_pending`. -/
def isInFlight : Status → Bool
  | .pending => true
  | .running => true
  | _ => false

/-- A row of the `quotes` table (`repository.Quote`). -/
structure QuoteRec where
  id : String
  base : GoStr
  quote : GoStr
  price : Option CStr
  status : Status
  errorMsg : Option String
  requestedAt : Nat
  updatedAt : Option Nat
deriving DecidableEq

/-- The `quotes` table plus a logical clock standing for `NOW()`. -/
structure Store where
  recs : List QuoteRec
  now : Nat
deriving DecidableEq

/-- Errors surfaced by the repository layer. -/
inductive RepoError
  /-- A transition-guarded `UPDATE` matched no row (`rows == 0`): the Go
  code returns "not found or not in … status". -/
  | invalidTransition
  /-- The statement would violate a unique index, so PostgreSQL rejects it
  (`23505`). -/
  | uniqueViolation
  /-- `CreateUpdate` hit a unique violation but no in-flight row for the
  pair could be found to join. -/
  | createFailed
  /-- `MarkCompleted` called with a status other than SUCCESS/FAILED. -/
  | invalidStatusArg
deriving DecidableEq

/-- Does `r` sit in the partial unique index with pair `(b, q)`? -/
def pairInFlight (b q : GoStr) (r : QuoteRec) : Bool :=
  decide (r.base = b ∧ r.quote = q ∧ isInFlight r.status = true)

/-- The partial unique index `uniq_quotes_pair_pending`: no two rows with
the same `(base, quote)` may both be in flight. -/
def noDupInFlight : List QuoteRec → Bool
  | [] => true
  | r :: rs =>
    (!(isInFlight r.status) || rs.all (fun x => !(pairInFlight r.base r.quote x)))
      && noDupInFlight rs

/-- The primary key on `id`: all row ids distinct. -/
def idsDistinct : List QuoteRec → Bool
  | [] => true
  | r :: rs => rs.all (fun x => decide (x.id ≠ r.id)) && idsDistinct rs

/-- `UPDATE … SET f(r) WHERE cond r`: transform every matching row in
place. -/
def applyWhere (cond : QuoteRec → Bool) (f : QuoteRec → QuoteRec)
    (recs : List QuoteRec) : List QuoteRec :=
  recs.map (fun r => if cond r then f r else r)

/-- `RowsAffected` of such an `UPDATE`. -/
def countWhere (cond : QuoteRec → Bool) (recs : List QuoteRec) : Nat :=
  (recs.filter cond).length

/-- `ORDER BY requested_at DESC LIMIT 1` (tie order unspecified in SQL; the
model keeps the later element of a tie). -/
def maxByRequested : List QuoteRec → Option QuoteRec
  | [] => none
  | r :: rs =>
    match maxByRequested rs with
    | none => some r
    | some m => some (if m.requestedAt > r.requestedAt then m else r)

/-- `findPendingOrRunningUpdate`: the most recently requested in-flight row
for the pair, if any. -/
def findPendingOrRunningUpdate (st : Store) (b q : GoStr) : Option String :=
  (maxByRequested (st.recs.filter (pairInFlight b q))).map (fun r => r.id)

/-- Would inserting `r` violate the primary key or the partial unique
index? -/
def insertViolation (recs : List QuoteRec) (r : QuoteRec) : Bool :=
  recs.any (fun x => decide (x.id = r.id))
    || (isInFlight r.status && recs.any (pairInFlight r.base r.quote))

/-- `CreateUpdate`: insert a fresh PENDING row; on a unique violation, look
up an in-flight row for the pair and return its id, else surface the
error. -/
def createUpdate (st : Store) (base quote : GoStr) (id : String) :
    Store × Except RepoError String :=
  let newRec : QuoteRec :=
    { id := id, base := base, quote := quote, price := none,
      status := .pending, errorMsg := none, requestedAt := st.now,
      updatedAt := none }
  if insertViolation st.recs newRec then
    match findPendingOrRunningUpdate st base quote with
    | some existingID => (st, .ok existingID)
    | none => (st, .error .createFailed)
  else ({ recs := st.recs ++ [newRec], now := st.now + 1 }, .ok id)

/-- The `WHERE` clause of `MarkRunning`: `id = $id AND status IN
('PENDING','FAILED')`. -/
def runCond (id : String) (r : QuoteRec) : Bool :=
  decide (r.id = id ∧ (r.status = .pending ∨ r.status = .failed))

/-- `MarkRunning`: guarded transition to RUNNING; note it does *not* touch
the `error` column.  The partial unique index is checked on the updated
table, as PostgreSQL does. -/
def markRunning (st : Store) (id : String) : Store × Except RepoError Unit :=
  let newRecs := applyWhere (runCond id)
    (fun r => { r with status := .running, updatedAt := some st.now }) st.recs
  if countWhere (runCond id) st.recs = 0 then (st, .error .invalidTransition)
  else if noDupInFlight newRecs then
    ({ recs := newRecs, now := st.now + 1 }, .ok ())
  else (st, .error .uniqueViolation)

/-- The `WHERE` clause of both completion updates: `id = $id AND status =
'RUNNING'`. -/
def completeCond (id : String) (r : QuoteRec) : Bool :=
  decide (r.id = id ∧ r.status = .running)

/-- `markSucceeded`: RUNNING → SUCCESS, storing the price and clearing the
error.  (A SUCCESS row leaves the partial index, so the statement can never
violate it.) -/
def markSucceeded (st : Store) (id : String) (price : CStr) :
    Store × Except RepoError Unit :=
  let newRecs := applyWhere (completeCond id)
    (fun r => { r with status := .success, price := some price, updatedAt := some st.now, errorMsg := none }) st.recs
  if countWhere (completeCond id) st.recs = 0 then (st, .error .invalidTransition)
  else ({ recs := newRecs, now := st.now + 1 }, .ok ())

/-- `markFailed`: RUNNING → FAILED, storing the error message; the SQL does
not touch the `price` column. -/
def markFailed (st : Store) (id : String) (errorMsg : Option String) :
    Store × Except RepoError Unit :=
  let newRecs := applyWhere (completeCond id)
    (fun r => { r with status := .failed, updatedAt := some st.now, errorMsg := errorMsg }) st.recs
  if countWhere (completeCond id) st.recs = 0 then (st, .error .invalidTransition)
  else ({ recs := newRecs, now := st.now + 1 }, .ok ())

/-- `MarkCompleted`: dispatch on the requested terminal status. -/
def markCompleted (st : Store) (id : String) (price : CStr) (status : Status)
    (errorMsg : Option String) : Store × Except RepoError Unit :=
  match status with
  | .success => markSucceeded st id price
  | .failed => markFailed st id errorMsg
  | _ => (st, .error .invalidStatusArg)

/-- `GetByID` (`scanQuote` maps "no rows" to a nil record). -/
def getByID (st : Store) (id : String) : Option QuoteRec :=
  st.recs.find? (fun r => decide (r.id = id))

/-- Does `r` match `base=$1 AND quote=$2 AND status='SUCCESS'`? -/
def successCond (b q : GoStr) (r : QuoteRec) : Bool :=
  decide (r.base = b ∧ r.quote = q ∧ r.status = .success)

/-- `ORDER BY updated_at DESC LIMIT 1` (NULL `updated_at` modelled as 0). -/
def maxByUpdated : List QuoteRec → Option QuoteRec
  | [] => none
  | r :: rs =>
    match maxByUpdated rs with
    | none => some r
    | some m =>
      some (if m.updatedAt.getD 0 > r.updatedAt.getD 0 then m else r)

/-- `GetLatestSuccess`. -/
def getLatestSuccess (st : Store) (b q : GoStr) : Option QuoteRec :=
  maxByUpdated (st.recs.filter (successCond b q))

/-! ## Reachable states of the quote store

A state is reachable when it arises from the empty table by any sequence of
repository mutations, with arbitrary arguments — exactly the interface the
service and worker (in any number of processes) drive. -/

/-- One repository mutation (reads do not change state). -/
inductive Step : Store → Store → Prop
  | create (st : Store) (base quote : GoStr) (id : String) :
      Step st (createUpdate st base quote id).1
  | run (st : Store) (id : String) : Step st (markRunning st id).1
  | complete (st : Store) (id : String) (price : CStr) (status : Status)
      (errorMsg : Option String) :
      Step st (markCompleted st id price status errorMsg).1

/-- States reachable from the empty table. -/
inductive Reachable : Store → Prop
  | init : Reachable { recs := [], now := 0 }
  | step {st st' : Store} : Reachable st → Step st st' → Reachable st'

/-! ## Latest-quote cache (service-level Redis helpers) -/

/-- The two hash fields of a `latest:{base:quote}` key; a missing field is
`none`.  A key that Redis has expired is modelled as an absent entry. -/
structure LEntry where
  price : Option RVal
  updatedAt : Option RVal
deriving DecidableEq

/-- The latest-quote cache: one entry per `(base, quote)` key. -/
abbrev LatestCache := List ((GoStr × GoStr) × LEntry)

instance : DecidableEq LatestCache := fun a b => inferInstanceAs (Decidable (a = b))

instance : DecidableEq (Option LatestCache) := fun a b => inferInstanceAs (Decidable (a = b))

/-- Redis key lookup for the pair's hash. -/
def lookupLatest (c : LatestCache) (b q : GoStr) : Option LEntry :=
  (c.find? (fun kv => decide (kv.1.1 = b ∧ kv.1.2 = q))).map (fun kv => kv.2)

/-- `HSET` of both fields plus `EXPIRE`, pipelined: overwrite the entry. -/
def upsertLatest (c : LatestCache) (b q : GoStr) (e : LEntry) : LatestCache :=
  ((b, q), e) :: c.filter (fun kv => !(decide (kv.1.1 = b ∧ kv.1.2 = q)))

/-- `cacheGetLatest`: read `price` and `updated_at`, require both present,
string-typed and RFC3339-parseable, and rebuild a SUCCESS `repository.Quote`
from them; any failure is a cache miss (`ok = false`).  `cache = none`
models a nil Redis client (and a `HMGet` transport error behaves the
same). -/
def cacheGetLatest (cache : Option LatestCache) (b q : GoStr) : Option QuoteRec :=
  match cache with
  | none => none
  | some c =>
    match lookupLatest c b q with
    | none => none
    | some e =>
      match e.price, e.updatedAt with
      | some v0, some v1 =>
        match asString v0, asString v1 with
        | some price, some ts =>
          match parseRFC3339 ts with
          | some t =>
            some { id := "", base := b, quote := q, price := some price,
                   status := .success, errorMsg := none, requestedAt := 0,
                   updatedAt := some t }
          | none => none
        | _, _ => none
      | _, _ => none

/-- `cacheSetLatest`: write both fields (price, RFC3339-formatted time) with
the configured TTL; a nil client is a no-op. -/
def cacheSetLatest (cache : Option LatestCache) (b q : GoStr) (rate : CStr)
    (t : Nat) : Option LatestCache :=
  match cache with
  | none => none
  | some c =>
    some (upsertLatest c b q
      { price := some (.str rate), updatedAt := some (.str (formatRFC3339 t)) })

/-- `cacheSetLatestFromQuote`: skip records without a price or update
time. -/
def cacheSetLatestFromQuote (cache : Option LatestCache) (q : QuoteRec) :
    Option LatestCache :=
  match q.price, q.updatedAt with
  | some p, some t => cacheSetLatest cache q.base q.quote p t
  | _, _ => cache

/-! ## Service layer -/

/-- `service.QuoteResult` (from `quoteResultFromRepo`'s target type). -/
structure QuoteResult where
  id : String
  base : GoStr
  quote : GoStr
  price : Option CStr
  status : Status
  errorMsg : Option String
  updatedAt : Option CStr
deriving DecidableEq

/-- `quoteResultFromRepo`: expose price/updatedAt only on SUCCESS, the error
message only on FAILED. -/
def quoteResultFromRepo (q : QuoteRec) : QuoteResult :=
  let r : QuoteResult :=
    { id := q.id, base := q.base, quote := q.quote, price := none,
      status := q.status, errorMsg := none, updatedAt := none }
  match q.status with
  | .success =>
    { r with price := q.price, updatedAt := q.updatedAt.map formatRFC3339 }
  | .failed => { r with errorMsg := q.errorMsg }
  | _ => r

/-- `QuoteService.markFailed`: best-effort `MarkCompleted(FAILED)`; a
failure is only logged, the store keeps whatever state the guarded update
left it in. -/
def svcMarkFailed (st : Store) (id : String) (reason : String) : Store :=
  (markCompleted st id (.plain "") .failed (some reason)).1

/-- `QuoteService.markRunning`: best-effort `MarkRunning`; a failure is only
logged. -/
def svcMarkRunning (st : Store) (id : String) : Store :=
  (markRunning st id).1

/-- `RequestQuoteUpdate`.  `uid` is the freshly generated UUID; `enqueueOk`
says whether `taskClient.Enqueue` succeeds (payload marshalling of the task
cannot fail).  Returns the new store, and either an error or the
`(updateID, status)` pair handed to the HTTP layer. -/
def requestQuoteUpdate (st : Store) (pair : GoStr) (uid : String)
    (enqueueOk : Bool) : Store × Except SvcError (String × Status) :=
  match parsePair pair with
  | .error e => (st, .error e)
  | .ok (base, quote) =>
    match validatePair base quote with
    | .error e => (st, .error e)
    | .ok _ =>
      match createUpdate st base quote uid with
      | (st1, .error _) => (st1, .error .internal)
      | (st1, .ok id) =>
        if id ≠ uid then (st1, .ok (id, .pending))
        else if enqueueOk then (st1, .ok (id, .pending))
        else (svcMarkFailed st1 uid ("enqueue error"), .error .internalQueue)

/-- The visible outcome of `ProcessUpdate`. -/
inductive ProcErr
  | invalidPairFormat
  | unsupportedCurrency
  | provider (msg : String)
  | db
deriving DecidableEq

/-- `ProcessUpdate`, the worker-side execution path.  `provRes` is what the
wrapped rates provider would return if called; the returned `Bool` records
whether it actually was called.  Mirrors the Go control flow: normalize,
validate (failure → best-effort FAILED completion), best-effort
`MarkRunning`, fetch, then `MarkCompleted` and a best-effort cache
write-through. -/
def processUpdate (st : Store) (cache : Option LatestCache) (id : String)
    (base quote : GoStr) (provRes : Except String (CStr × Nat)) :
    Store × Option LatestCache × Option ProcErr × Bool :=
  match normalizePair base quote with
  | .error _ => (st, cache, some .invalidPairFormat, false)
  | .ok (b, q) =>
    match validatePair b q with
    | .error e =>
      ((markCompleted st id (.plain "") .failed (some (svcErrMsg e))).1,
        cache, some .unsupportedCurrency, false)
    | .ok _ =>
      let st1 := svcMarkRunning st id
      match provRes with
      | .error msg =>
        ((markCompleted st1 id (.plain "") .failed (some msg)).1,
          cache, some (.provider msg), true)
      | .ok (rate, ts) =>
        match markCompleted st1 id rate .success none with
        | (st2, .error _) => (st2, cache, some .db, true)
        | (st2, .ok _) => (st2, cacheSetLatest cache b q rate ts, none, true)

/-- `GetLatestQuote`: validate, consult the latest-quote cache, and on a
miss read `GetLatestSuccess` and write through.  (The model's store reads
are total, so the `ErrInternal` branch for a failing database round-trip
has no counterpart here.) -/
def getLatestQuote (st : Store) (cache : Option LatestCache)
    (base quote : GoStr) : Except SvcError QuoteResult × Option LatestCache :=
  match normalizePair base quote with
  | .error e => (.error e, cache)
  | .ok (b, q) =>
    match validatePair b q with
    | .error e => (.error e, cache)
    | .ok _ =>
      match cacheGetLatest cache b q with
      | some qr => (.ok (quoteResultFromRepo qr), cache)
      | none =>
        match getLatestSuccess st b q with
        | none => (.error .notFound, cache)
        | some qr =>
          (.ok (quoteResultFromRepo qr), cacheSetLatestFromQuote cache qr)

/-! ## Rate source facade -/

/-- `NewExchangeProviderFacade`: wraps whatever list it is given — there is
no arity check.  Each provider is represented by the result it would return
for the requested call. -/
structure Facade where
  providers : List (Except String (CStr × Nat))

/-- `NewExchangeProviderFacade`. -/
def newExchangeProviderFacade (ps : List (Except String (CStr × Nat))) :
    Facade :=
  { providers := ps }

/-- `ExchangeProviderFacade.GetRate`: try each provider in order, return the
first success; if all fail, return the aggregate of every error (the Go
code wraps `errors.Join` of the collected errors in "all providers
failed"). -/
def facadeLoop : List (Except String (CStr × Nat)) → List String →
    Except (List String) (CStr × Nat)
  | [], errs => .error errs
  | .ok r :: _, _ => .ok r
  | .error e :: rest, errs => facadeLoop rest (errs ++ [e])

/-- `ExchangeProviderFacade.GetRate`, entry point of the loop. -/
def facadeGetRate (f : Facade) : Except (List String) (CStr × Nat) :=
  facadeLoop f.providers []

/-- One configured upstream source of `newRateProvider` (from the
application wiring), wrapped in its per-source cache decorator. -/
inductive SourceKind
  | exchangerateHost
  | frankfurter
deriving DecidableEq

/-- The provider configuration consulted by `newRateProvider`. -/
structure ProvidersConfig where
  erhBaseURL : String
  erhAPIKey : String
  frankBaseURL : String
deriving DecidableEq

/-- What `newRateProvider` hands to the service: a single source, or a
facade over several. -/
inductive RateProviderChoice
  | single (s : SourceKind)
  | facade (ss : List SourceKind)
deriving DecidableEq

/-- `newRateProvider` from the application wiring: collect the correctly
configured sources (exchangerate.host needs base URL and API key,
Frankfurter needs a base URL), fail if there are none, return the sole
source directly, and otherwise build a facade over all of them. -/
def newRateProvider (cfg : ProvidersConfig) : Except String RateProviderChoice :=
  let ps : List SourceKind :=
    (if cfg.erhBaseURL ≠ "" ∧ cfg.erhAPIKey ≠ "" then [.exchangerateHost] else [])
      ++ (if cfg.frankBaseURL ≠ "" then [.frankfurter] else [])
  match ps with
  | [] => .error ("no exchange rate providers are correctly configured")
  | [p] => .ok (.single p)
  | ps => .ok (.facade ps)

/-- The sources behind a `RateProviderChoice`. -/
def choiceSources : RateProviderChoice → List SourceKind
  | .single s => [s]
  | .facade ss => ss

/-! ## Per-source cache decorator -/

/-- The key `provider_cache:%s:{%s:%s}` of the decorator, structured. -/
abbrev SKey := String × GoStr × GoStr

/-- One cached per-source entry: the two hash fields plus the instant the
key expires (set via `EXPIRE ttl`). -/
structure SEntry where
  price : RVal
  updatedAt : RVal
  expiresAt : Nat
deriving DecidableEq

/-- The per-source cache. -/
abbrev SrcCache := List (SKey × SEntry)

/-- The fields Redis serves for a key at time `now`: nothing once the TTL
has elapsed. -/
def liveSrcEntry (c : SrcCache) (now : Nat) (k : SKey) : Option SEntry :=
  (c.find? (fun kv => decide (kv.1 = k) && decide (now < kv.2.expiresAt))).map
    (fun kv => kv.2)

/-- Decoding of a cached entry by `GetRate`: both fields must be strings
and `updated_at` must parse as RFC3339. -/
def readSrcEntry (e : SEntry) : Option (CStr × Nat) :=
  match asString e.price, asString e.updatedAt with
  | some p, some ts =>
    match parseRFC3339 ts with
    | some t => some (p, t)
    | none => none
  | _, _ => none

/-- The cache view consulted before calling the wrapped source. -/
def srcCacheHit (c : SrcCache) (now : Nat) (k : SKey) : Option (CStr × Nat) :=
  (liveSrcEntry c now k).bind readSrcEntry

/-- Overwrite the entry for `k`. -/
def upsertSrc (c : SrcCache) (k : SKey) (e : SEntry) : SrcCache :=
  (k, e) :: c.filter (fun kv => !(decide (kv.1 = k)))

/-- `CachedRatesProviderDecorator.GetRate`: serve a present, decodable,
unexpired entry without touching the wrapped source; otherwise call it
(`provRes` is its would-be answer; the returned `Bool` records the call),
caching the result with the configured TTL only on success. -/
def cachedGetRate (c : SrcCache) (now : Nat) (k : SKey) (ttl : Nat)
    (provRes : Except String (CStr × Nat)) :
    Except String (CStr × Nat) × SrcCache × Bool :=
  match srcCacheHit c now k with
  | some hit => (.ok hit, c, false)
  | none =>
    match provRes with
    | .error e => (.error e, c, true)
    | .ok (p, t) =>
      (.ok (p, t),
        upsertSrc c k
          { price := .str p, updatedAt := .str (formatRFC3339 t),
            expiresAt := now + ttl },
        true)

/-! ## Invariants and specification-side predicates -/

/-- Two rows do not jointly violate the partial unique index. -/
def NoC (a b : QuoteRec) : Prop :=
  ¬(isInFlight a.status = true ∧ isInFlight b.status = true ∧
    a.base = b.base ∧ a.quote = b.quote)

/-- Row-level data invariant: a price is stored exactly on SUCCESS rows,
and PENDING/SUCCESS rows carry no error message. -/
def RecInv (r : QuoteRec) : Prop :=
  (r.price.isSome = true ↔ r.status = .success) ∧
  ((r.status = .pending ∨ r.status = .success) → r.errorMsg = none)

/-- Store well-formedness: primary key, partial unique index, row
invariants. -/
def StoreWF (st : Store) : Prop :=
  idsDistinct st.recs = true ∧ noDupInFlight st.recs = true ∧
    ∀ r ∈ st.recs, RecInv r

/-- The number of in-flight rows a pair owns. -/
def countInFlight (st : Store) (b q : GoStr) : Nat :=
  countWhere (pairInFlight b q) st.recs

/-- Some *other* row of the same pair is in flight (the situation in which
the partial unique index blocks a FAILED → RUNNING retry). -/
def otherInFlightForPair (st : Store) (r : QuoteRec) : Prop :=
  ∃ y ∈ st.recs, y.id ≠ r.id ∧ y.base = r.base ∧ y.quote = r.quote ∧
    isInFlight y.status = true

/-- The store-of-truth answer of `GetLatestQuote` once the cache missed. -/
def latestFromStore (st : Store) (b q : GoStr) : Except SvcError QuoteResult :=
  match getLatestSuccess st b q with
  | none => .error .notFound
  | some qr => .ok (quoteResultFromRepo qr)

/-- Spec-side (§4.1): an ASCII letter. -/
def isAsciiLetter (c : Char) : Prop :=
  ('A' ≤ c ∧ c ≤ 'Z') ∨ ('a' ≤ c ∧ c ≤ 'z')

instance (c : Char) : Decidable (isAsciiLetter c) := by
  unfold isAsciiLetter
  infer_instance

/-- Spec-side (§4.1, claim C7): "exactly 3 ASCII letters". -/
def specValid3Letters (code : GoStr) : Prop :=
  code.length = 3 ∧ ∀ c ∈ code, isAsciiLetter c

instance (code : GoStr) : Decidable (specValid3Letters code) := by
  unfold specValid3Letters
  infer_instance

/-- One of the two non-ASCII code points whose Unicode uppercase is an
ASCII letter. -/
def isExoticChar (c : Char) : Prop := c = dotlessI ∨ c = longS

instance (c : Char) : Decidable (isExoticChar c) := by
  unfold isExoticChar
  infer_instance

/-- The extra strings the format check accepts beyond the spec's reading:
two characters of three UTF-8 bytes, one exotic and one ASCII letter. -/
def exoticAccepted (code : GoStr) : Prop :=
  ∃ x y, code = [x, y] ∧
    ((isExoticChar x ∧ isAsciiLetter y) ∨ (isAsciiLetter x ∧ isExoticChar y))

/-- A cached latest-quote hash the service must treat as a miss: a field is
absent, a present field is not string-typed, or the timestamp does not parse
as RFC3339. -/
def degradedEntry (e : LEntry) : Prop :=
  e.price = none ∨ e.updatedAt = none ∨
    (∃ v, e.price = some v ∧ asString v = none) ∨
    (∃ v, e.updatedAt = some v ∧ asString v = none) ∨
    (∃ v s, e.updatedAt = some v ∧ asString v = some s ∧ parseRFC3339 s = none)

/-- A latest-quote cache state that cannot serve the pair: the client is
nil, the key is absent (also modelling TTL expiry), or the stored hash is
degraded. -/
def degradedCache (cache : Option LatestCache) (b q : GoStr) : Prop :=
  cache = none ∨
    (∃ c, cache = some c ∧
      (lookupLatest c b q = none ∨
        ∃ e, lookupLatest c b q = some e ∧ degradedEntry e))

/-! ### Concrete trace states used by witnesses and counterexamples -/

/-- The empty store. -/
def exStore0 : Store := { recs := [], now := 0 }

/-- USD/EUR update `u1` created (PENDING). -/
def exStore1 : Store :=
  (createUpdate exStore0 (("USD").toList) (("EUR").toList) ("u1")).1

/-- … marked RUNNING. -/
def exStore2 : Store := (markRunning exStore1 ("u1")).1

/-- … completed FAILED with a provider error message. -/
def exStore3 : Store :=
  (markCompleted exStore2 ("u1") (.plain "") .failed (some ("provider down"))).1

/-- … a second USD/EUR update `u2` created (PENDING) after the failure. -/
def exStore4 : Store :=
  (createUpdate exStore3 (("USD").toList) (("EUR").toList) ("u2")).1

theorem NoC.symm {a b : QuoteRec} (h : NoC a b) : NoC b a := by
  intro hc
  exact h ⟨hc.2.1, hc.1, hc.2.2.1.symm, hc.2.2.2.symm⟩

theorem pairInFlight_eq_false_iff {b q : GoStr} {x : QuoteRec} :
    pairInFlight b q x = false ↔ ¬(x.base = b ∧ x.quote = q ∧ isInFlight x.status = true) := by
  simp [pairInFlight]

theorem idsDistinct_cons {r : QuoteRec} {l : List QuoteRec} :
    idsDistinct (r :: l) = true ↔
      (∀ x ∈ l, x.id ≠ r.id) ∧ idsDistinct l = true := by
  simp [idsDistinct, List.all_eq_true]

theorem noDupInFlight_cons {r : QuoteRec} {l : List QuoteRec} :
    noDupInFlight (r :: l) = true ↔
      (isInFlight r.status = true → ∀ x ∈ l, pairInFlight r.base r.quote x = false)
        ∧ noDupInFlight l = true := by
  by_cases hf : isInFlight r.status = true
  · simp [noDupInFlight, hf, List.all_eq_true]
  · simp [noDupInFlight, Bool.eq_false_iff.mpr hf, hf]

/-- Rows with distinct ids are distinct rows. -/
theorem idsDistinct_inj {l : List QuoteRec} (h : idsDistinct l = true)
    {a b : QuoteRec} (ha : a ∈ l) (hb : b ∈ l) (hid : a.id = b.id) : a = b := by
  induction l with
  | nil => cases ha
  | cons r t ih =>
    rcases idsDistinct_cons.mp h with ⟨hr, ht⟩
    rcases List.mem_cons.mp ha with rfl | ha2
    · rcases List.mem_cons.mp hb with rfl | hb2
      · rfl
      · exact absurd hid.symm (hr b hb2)
    · rcases List.mem_cons.mp hb with rfl | hb2
      · exact absurd hid (hr a ha2)
      · exact ih ht ha2 hb2

/-- On id-distinct tables the partial-unique-index check says exactly that
no two rows with different ids jointly violate it. -/
theorem noDupInFlight_iff {l : List QuoteRec} (hids : idsDistinct l = true) :
    noDupInFlight l = true ↔ ∀ a ∈ l, ∀ b ∈ l, a.id ≠ b.id → NoC a b := by
  induction l with
  | nil => simp [noDupInFlight]
  | cons r t ih =>
    rcases idsDistinct_cons.mp hids with ⟨hr, ht⟩
    rw [noDupInFlight_cons, ih ht]
    constructor
    · rintro ⟨hhead, htail⟩ a ha b hb hab
      rcases List.mem_cons.mp ha with rfl | ha2
      · rcases List.mem_cons.mp hb with rfl | hb2
        · exact absurd rfl hab
        · intro hc
          have := (pairInFlight_eq_false_iff.mp (hhead hc.1 b hb2))
          exact this ⟨hc.2.2.1.symm, hc.2.2.2.symm, hc.2.1⟩
      · rcases List.mem_cons.mp hb with rfl | hb2
        · intro hc
          have := (pairInFlight_eq_false_iff.mp (hhead hc.2.1 a ha2))
          exact this ⟨hc.2.2.1, hc.2.2.2, hc.1⟩
        · exact htail a ha2 b hb2 hab
    · intro hall
      refine ⟨?_, ?_⟩
      · intro hf x hx
        rw [pairInFlight_eq_false_iff]
        intro hc
        exact hall r (List.mem_cons_self r t) x (List.mem_cons_of_mem r hx)
          (Ne.symm (hr x hx)) ⟨hf, hc.2.2, hc.1.symm, hc.2.1.symm⟩
      · exact fun a ha b hb hab =>
          hall a (List.mem_cons_of_mem r ha) b (List.mem_cons_of_mem r hb) hab

theorem idsDistinct_append {l : List QuoteRec} {r : QuoteRec}
    (hl : idsDistinct l = true) (hfresh : ∀ x ∈ l, x.id ≠ r.id) :
    idsDistinct (l ++ [r]) = true := by
  induction l with
  | nil => simp [idsDistinct]
  | cons h t ih =>
    rcases idsDistinct_cons.mp hl with ⟨hh, ht⟩
    refine idsDistinct_cons.mpr ⟨?_, ih ht (fun x hx => hfresh x (List.mem_cons_of_mem h hx))⟩
    intro x hx
    rcases List.mem_append.mp hx with hx2 | hx2
    · exact hh x hx2
    · rcases List.mem_singleton.mp hx2 with rfl
      exact fun hc => hfresh h (List.mem_cons_self h t) hc.symm

theorem noDupInFlight_append {l : List QuoteRec} {r : QuoteRec}
    (hl : noDupInFlight l = true)
    (hno : isInFlight r.status = true →
      ∀ x ∈ l, ¬(x.base = r.base ∧ x.quote = r.quote ∧ isInFlight x.status = true)) :
    noDupInFlight (l ++ [r]) = true := by
  induction l with
  | nil =>
    simp [noDupInFlight]
  | cons h t ih =>
    rcases noDupInFlight_cons.mp hl with ⟨hh, ht⟩
    refine noDupInFlight_cons.mpr
      ⟨?_, ih ht (fun hf x hx => hno hf x (List.mem_cons_of_mem h hx))⟩
    intro hf x hx
    rcases List.mem_append.mp hx with hx2 | hx2
    · exact hh hf x hx2
    · rcases List.mem_singleton.mp hx2 with rfl
      rw [pairInFlight_eq_false_iff]
      intro hc
      exact hno hc.2.2 h (List.mem_cons_self h t) ⟨hc.1.symm, hc.2.1.symm, hf⟩

/-- `applyWhere` with an id-preserving transform keeps ids distinct. -/
theorem idsDistinct_applyWhere {cond : QuoteRec → Bool} {f : QuoteRec → QuoteRec}
    (hf : ∀ r, (f r).id = r.id) {l : List QuoteRec} (hl : idsDistinct l = true) :
    idsDistinct (applyWhere cond f l) = true := by
  induction l with
  | nil => simpa [applyWhere] using hl
  | cons h t ih =>
    rcases idsDistinct_cons.mp hl with ⟨hh, ht⟩
    have hid : ∀ r : QuoteRec, (if cond r then f r else r).id = r.id := by
      intro r
      by_cases hc : cond r <;> simp [hc, hf]
    refine idsDistinct_cons.mpr ⟨?_, ih ht⟩
    intro x hx
    rcases List.mem_map.mp hx with ⟨y, hy, rfl⟩
    rw [hid y, hid h]
    exact hh y hy

/-- `applyWhere` with a transform that keeps the pair and never moves a row
*into* the in-flight index preserves the partial unique index. -/
theorem noDupInFlight_applyWhere {cond : QuoteRec → Bool} {f : QuoteRec → QuoteRec}
    (hbase : ∀ r, (f r).base = r.base) (hquote : ∀ r, (f r).quote = r.quote)
    (hflight : ∀ r, isInFlight (f r).status = true → isInFlight r.status = true)
    {l : List QuoteRec} (hl : noDupInFlight l = true) :
    noDupInFlight (applyWhere cond f l) = true := by
  have hb : ∀ r : QuoteRec, (if cond r then f r else r).base = r.base := by
    intro r; by_cases hc : cond r <;> simp [hc, hbase]
  have hq : ∀ r : QuoteRec, (if cond r then f r else r).quote = r.quote := by
    intro r; by_cases hc : cond r <;> simp [hc, hquote]
  have hfl : ∀ r : QuoteRec,
      isInFlight (if cond r then f r else r).status = true →
        isInFlight r.status = true := by
    intro r; by_cases hc : cond r <;> simp [hc]; exact hflight r
  induction l with
  | nil => simpa [applyWhere] using hl
  | cons h t ih =>
    rcases noDupInFlight_cons.mp hl with ⟨hh, ht⟩
    refine noDupInFlight_cons.mpr ⟨?_, ih ht⟩
    intro hf2 x hx
    rcases List.mem_map.mp hx with ⟨y, hy, rfl⟩
    rw [pairInFlight_eq_false_iff]
    intro hc
    have hyx := hfl y hc.2.2
    have := pairInFlight_eq_false_iff.mp (hh (hfl h hf2) y hy)
    exact this ⟨by rw [← hb y, hc.1, hb h], by rw [← hq y, hc.2.1, hq h], hyx⟩

/-! ## Preservation of well-formedness -/

theorem storeWF_init : StoreWF { recs := [], now := 0 } := by
  refine ⟨rfl, rfl, ?_⟩
  intro r hr
  cases hr

theorem insertViolation_false {recs : List QuoteRec} {r : QuoteRec}
    (h : ¬ insertViolation recs r = true) :
    (∀ x ∈ recs, x.id ≠ r.id) ∧
      (isInFlight r.status = true → ∀ x ∈ recs, pairInFlight r.base r.quote x = false) := by
  simp only [insertViolation, Bool.or_eq_true, Bool.and_eq_true,
    List.any_eq_true, decide_eq_true_eq] at h
  push_neg at h
  exact ⟨h.1, fun hf x hx => Bool.eq_false_iff.mpr (h.2 hf x hx)⟩

theorem storeWF_createUpdate {st : Store} (h : StoreWF st) (b q : GoStr)
    (id : String) : StoreWF (createUpdate st b q id).1 := by
  rcases h with ⟨hids, hdup, hinv⟩
  unfold createUpdate
  by_cases hviol : insertViolation st.recs
      { id := id, base := b, quote := q, price := none, status := .pending,
        errorMsg := none, requestedAt := st.now, updatedAt := none } = true
  · simp only [hviol, if_true]
    cases findPendingOrRunningUpdate st b q <;> exact ⟨hids, hdup, hinv⟩
  · simp only [hviol, if_false]
    rcases insertViolation_false hviol with ⟨hfresh, hnof⟩
    refine ⟨?_, ?_, ?_⟩
    · exact idsDistinct_append hids hfresh
    · refine noDupInFlight_append hdup ?_
      intro hf x hx hc
      have := hnof hf x hx
      rw [Bool.eq_false_iff] at this
      exact this (by simpa [pairInFlight] using hc)
    · intro r hr
      rcases List.mem_append.mp hr with hr2 | hr2
      · exact hinv r hr2
      · rcases List.mem_singleton.mp hr2 with rfl
        exact ⟨by simp, fun _ => rfl⟩

theorem storeWF_markRunning {st : Store} (h : StoreWF st) (id : String) :
    StoreWF (markRunning st id).1 := by
  rcases h with ⟨hids, hdup, hinv⟩
  unfold markRunning
  by_cases h0 : countWhere (runCond id) st.recs = 0
  · simp only [h0, if_true]
    exact ⟨hids, hdup, hinv⟩
  · simp only [h0, if_false]
    by_cases hguard : noDupInFlight (applyWhere (runCond id)
        (fun r => { r with status := .running, updatedAt := some st.now }) st.recs) = true
    · simp only [hguard, if_true]
      refine ⟨?_, hguard, ?_⟩
      · apply idsDistinct_applyWhere _ hids
        intro r
        rfl
      intro r hr
      rcases List.mem_map.mp hr with ⟨y, hy, rfl⟩
      by_cases hc : runCond id y = true
      · have hyinv := hinv y hy
        have hys : y.status = .pending ∨ y.status = .failed := by
          simp only [runCond, decide_eq_true_eq] at hc
          exact hc.2
        have hprice : y.price = none := by
          cases hyp : y.price with
          | none => rfl
          | some p =>
            exfalso
            have hsucc := hyinv.1.mp (by simp [hyp])
            rcases hys with hs | hs <;> simp [hsucc] at hs
        simp only [hc, if_true]
        constructor
        · simp [hprice]
        · intro hcontr
          rcases hcontr with hs | hs <;> cases hs
      · simp only [hc, if_false]
        exact hinv y hy
    · simp only [hguard, if_false]
      exact ⟨hids, hdup, hinv⟩

theorem storeWF_markSucceeded {st : Store} (h : StoreWF st) (id : String)
    (price : CStr) : StoreWF (markSucceeded st id price).1 := by
  rcases h with ⟨hids, hdup, hinv⟩
  unfold markSucceeded
  by_cases h0 : countWhere (completeCond id) st.recs = 0
  · simp only [h0, if_true]
    exact ⟨hids, hdup, hinv⟩
  · simp only [h0, if_false]
    refine ⟨?_, ?_, ?_⟩
    · apply idsDistinct_applyWhere _ hids
      intro r
      rfl
    · apply noDupInFlight_applyWhere _ _ _ hdup
      · intro r
        rfl
      · intro r
        rfl
      · intro r hf
        simp [isInFlight] at hf
    · intro r hr
      rcases List.mem_map.mp hr with ⟨y, hy, rfl⟩
      by_cases hc : completeCond id y = true
      · simp only [hc, if_true]
        exact ⟨by simp, fun _ => rfl⟩
      · simp only [hc, if_false]
        exact hinv y hy

theorem storeWF_markFailed {st : Store} (h : StoreWF st) (id : String)
    (msg : Option String) : StoreWF (markFailed st id msg).1 := by
  rcases h with ⟨hids, hdup, hinv⟩
  unfold markFailed
  by_cases h0 : countWhere (completeCond id) st.recs = 0
  · simp only [h0, if_true]
    exact ⟨hids, hdup, hinv⟩
  · simp only [h0, if_false]
    refine ⟨?_, ?_, ?_⟩
    · apply idsDistinct_applyWhere _ hids
      intro r
      rfl
    · apply noDupInFlight_applyWhere _ _ _ hdup
      · intro r
        rfl
      · intro r
        rfl
      · intro r hf
        simp [isInFlight] at hf
    · intro r hr
      rcases List.mem_map.mp hr with ⟨y, hy, rfl⟩
      by_cases hc : completeCond id y = true
      · have hyinv := hinv y hy
        have hys : y.status = .running := by
          simp only [completeCond, decide_eq_true_eq] at hc
          exact hc.2
        have hprice : y.price = none := by
          cases hyp : y.price with
          | none => rfl
          | some p =>
            exfalso
            have := hyinv.1.mp (by simp [hyp])
            simp [this] at hys
        simp only [hc, if_true]
        constructor
        · simp [hprice]
        · intro hcontr
          rcases hcontr with hs | hs <;> cases hs
      · simp only [hc, if_false]
        exact hinv y hy

theorem storeWF_markCompleted {st : Store} (h : StoreWF st) (id : String)
    (price : CStr) (status : Status) (msg : Option String) :
    StoreWF (markCompleted st id price status msg).1 := by
  unfold markCompleted
  cases status with
  | success => exact storeWF_markSucceeded h id price
  | failed => exact storeWF_markFailed h id msg
  | pending => exact h
  | running => exact h

/-- Every reachable store is well formed: ids are unique, at most one row
per pair is in flight, prices live only on SUCCESS rows and errors never on
PENDING/SUCCESS rows. -/
theorem reachable_storeWF {st : Store} (h : Reachable st) : StoreWF st := by
  induction h with
  | init => exact storeWF_init
  | step _ hstep ih =>
    cases hstep with
    | create b q id => exact storeWF_createUpdate ih b q id
    | run id => exact storeWF_markRunning ih id
    | complete id price status msg => exact storeWF_markCompleted ih id price status msg

/-! ## Reading the store after a guarded update -/

theorem find?_applyWhere {id : String} {cond : QuoteRec → Bool}
    (f : QuoteRec → QuoteRec) (hc : ∀ r, cond r = true → r.id = id)
    (hf : ∀ r, (f r).id = r.id) (recs : List QuoteRec) :
    (applyWhere cond f recs).find? (fun r => decide (r.id = id))
      = (recs.find? (fun r => decide (r.id = id))).map
          (fun r => if cond r then f r else r) := by
  induction recs with
  | nil => rfl
  | cons h t ih =>
    by_cases hid : h.id = id
    · have hid2 : (if cond h then f h else h).id = id := by
        by_cases hch : cond h = true <;> simp [hch, hf, hid]
      rw [applyWhere, List.map_cons]
      rw [List.find?_cons_of_pos _ (by simp [hid2]),
        List.find?_cons_of_pos _ (by simp [hid])]
      rfl
    · have hcf : cond h = false := by
        rw [Bool.eq_false_iff]
        intro hch
        exact hid (hc h hch)
      rw [applyWhere, List.map_cons]
      rw [List.find?_cons_of_neg _ (by simp [hcf, hid]),
        List.find?_cons_of_neg _ (by simp [hid])]
      exact ih

theorem countWhere_eq_zero {cond : QuoteRec → Bool} {recs : List QuoteRec} :
    countWhere cond recs = 0 ↔ ∀ r ∈ recs, cond r = false := by
  simp [countWhere, List.length_eq_zero, List.filter_eq_nil_iff]

theorem countWhere_ne_zero_of_mem {cond : QuoteRec → Bool}
    {recs : List QuoteRec} {r : QuoteRec} (hr : r ∈ recs)
    (hc : cond r = true) : ¬ countWhere cond recs = 0 := by
  intro h0
  have := countWhere_eq_zero.mp h0 r hr
  rw [hc] at this
  cases this

theorem getByID_eq_none {st : Store} {id : String} :
    getByID st id = none ↔ ∀ r ∈ st.recs, r.id ≠ id := by
  simp [getByID, List.find?_eq_none]

theorem getByID_mem {st : Store} {id : String} {r : QuoteRec}
    (h : getByID st id = some r) : r ∈ st.recs ∧ r.id = id := by
  refine ⟨List.mem_of_find?_eq_some h, ?_⟩
  have := List.find?_some h
  simpa using this

/-- With the primary key, a row-guarded condition that fails on the row
`GetByID` returns fails on every row. -/
theorem cond_false_everywhere {st : Store} {id : String} {r : QuoteRec}
    (hids : idsDistinct st.recs = true) (h : getByID st id = some r)
    {p : QuoteRec → Bool} (hp : p r = false)
    (himp : ∀ x, p x = true → x.id = id) :
    ∀ x ∈ st.recs, p x = false := by
  intro x hx
  rw [Bool.eq_false_iff]
  intro hpx
  rcases getByID_mem h with ⟨hrmem, hrid⟩
  have hxid : x.id = id := himp x hpx
  have : x = r := idsDistinct_inj hids hx hrmem (by rw [hxid, hrid])
  rw [this, hp] at hpx
  cases hpx

theorem filter_pairInFlight_single {b q : GoStr} {l : List QuoteRec}
    (hdup : noDupInFlight l = true) {r : QuoteRec} (hr : r ∈ l)
    (hp : pairInFlight b q r = true) :
    l.filter (pairInFlight b q) = [r] := by
  induction l with
  | nil => cases hr
  | cons h t ih =>
    rcases noDupInFlight_cons.mp hdup with ⟨hh, ht⟩
    by_cases hhp : pairInFlight b q h = true
    · have hhdata : h.base = b ∧ h.quote = q ∧ isInFlight h.status = true := by
        simpa [pairInFlight] using hhp
      have htnil : t.filter (pairInFlight b q) = [] := by
        rw [List.filter_eq_nil_iff]
        intro x hx
        have := hh hhdata.2.2 x hx
        rw [hhdata.1, hhdata.2.1] at this
        simp [this]
      have hrh : r = h := by
        rcases List.mem_cons.mp hr with rfl | hrt
        · rfl
        · exfalso
          have := List.filter_eq_nil_iff.mp htnil r hrt
          rw [hp] at this
          exact this rfl
      rw [List.filter_cons_of_pos hhp, htnil, hrh]
    · have hrt : r ∈ t := by
        rcases List.mem_cons.mp hr with rfl | hrt
        · rw [hp] at hhp
          exact absurd rfl hhp
        · exact hrt
      rw [List.filter_cons_of_neg (by simpa using hhp)]
      exact ih ht hrt

/-! ## Reachability of the concrete trace states -/

theorem reach_exStore0 : Reachable exStore0 := Reachable.init

theorem reach_exStore1 : Reachable exStore1 :=
  Reachable.step reach_exStore0 (Step.create _ _ _ _)

theorem reach_exStore2 : Reachable exStore2 :=
  Reachable.step reach_exStore1 (Step.run _ _)

theorem reach_exStore3 : Reachable exStore3 :=
  Reachable.step reach_exStore2 (Step.complete _ _ _ _ _)

theorem reach_exStore4 : Reachable exStore4 :=
  Reachable.step reach_exStore3 (Step.create _ _ _ _)

/-! ## Claim C2 -/

/-- C2: in every reachable store each pair owns at most one in-flight
record, and `CreateUpdate` with a fresh candidate id joins the existing
in-flight record (returning its id, inserting nothing) when one exists,
and otherwise inserts a fresh PENDING record carrying the candidate id. -/
theorem createUpdate_dedup_invariant {st : Store} (h : Reachable st)
    (b q : GoStr) (uid : String) (hfresh : ∀ x ∈ st.recs, x.id ≠ uid) :
    countInFlight st b q ≤ 1 ∧
    (∀ r ∈ st.recs, pairInFlight b q r = true →
      createUpdate st b q uid = (st, .ok r.id)) ∧
    ((∀ r ∈ st.recs, pairInFlight b q r = false) →
      createUpdate st b q uid =
        ({ recs := st.recs ++
            [{ id := uid, base := b, quote := q, price := none,
               status := .pending, errorMsg := none, requestedAt := st.now,
               updatedAt := none }], now := st.now + 1 }, .ok uid)) := by
  rcases reachable_storeWF h with ⟨hids, hdup, hinv⟩
  refine ⟨?_, ?_, ?_⟩
  · cases hfil : st.recs.filter (pairInFlight b q) with
    | nil => simp [countInFlight, countWhere, hfil]
    | cons r t =>
      have hrmem : r ∈ st.recs.filter (pairInFlight b q) := by
        rw [hfil]; exact List.mem_cons_self r t
      have hr1 := List.mem_filter.mp hrmem
      have := filter_pairInFlight_single hdup hr1.1 hr1.2
      simp [countInFlight, countWhere, this]
  · intro r hr hp
    have hviol : insertViolation st.recs
        { id := uid, base := b, quote := q, price := none, status := .pending,
          errorMsg := none, requestedAt := st.now, updatedAt := none } = true := by
      simp only [insertViolation, Bool.or_eq_true, Bool.and_eq_true,
        List.any_eq_true]
      exact Or.inr ⟨rfl, r, hr, hp⟩
    have hfind : findPendingOrRunningUpdate st b q = some r.id := by
      unfold findPendingOrRunningUpdate
      rw [filter_pairInFlight_single hdup hr hp]
      rfl
    unfold createUpdate
    simp only [hviol, if_true, hfind]
  · intro hnone
    have hviol : ¬ insertViolation st.recs
        { id := uid, base := b, quote := q, price := none, status := .pending,
          errorMsg := none, requestedAt := st.now, updatedAt := none } = true := by
      simp only [insertViolation, Bool.or_eq_true, Bool.and_eq_true,
        List.any_eq_true, decide_eq_true_eq, not_or]
      constructor
      · rintro ⟨x, hx, hxid⟩
        exact hfresh x hx hxid
      · rintro ⟨_, x, hx, hxp⟩
        rw [hnone x hx] at hxp
        cases hxp
    unfold createUpdate
    rw [Bool.not_eq_true] at hviol
    simp only [hviol, Bool.false_eq_true, if_false]

/-- Witness for C2 at the empty store: no USD/EUR update is in flight, so
`CreateUpdate` inserts the fresh PENDING row. -/
theorem createUpdate_dedup_invariant_witness :
    createUpdate exStore0 (("USD").toList) (("EUR").toList) ("u1") =
      ({ recs := [{ id := "u1", base := ("USD").toList, quote := ("EUR").toList, price := none, status := .pending, errorMsg := none, requestedAt := 0, updatedAt := none }], now := 1 }, .ok ("u1")) :=
  (createUpdate_dedup_invariant reach_exStore0 (("USD").toList)
      (("EUR").toList) ("u1") (by intro x hx; cases hx)).2.2
    (by intro r hr; cases hr)

/-! ## Claim C4 -/

/-- C4: `MarkCompleted` moves a RUNNING record to SUCCESS (storing the
price, clearing the error) or to FAILED (storing the error message, the
record keeping no price); on any record that is not RUNNING it returns the
invalid-transition error and leaves the store unchanged. -/
theorem markCompleted_transitions {st : Store} (h : Reachable st)
    {id : String} {r : QuoteRec} (hr : getByID st id = some r)
    (price : CStr) (msg : String) :
    (r.status = .running →
      (markCompleted st id price .success none).2 = .ok () ∧
      getByID (markCompleted st id price .success none).1 id =
        some { r with status := .success, price := some price, updatedAt := some st.now, errorMsg := none } ∧
      (markCompleted st id (.plain "") .failed (some msg)).2 = .ok () ∧
      getByID (markCompleted st id (.plain "") .failed (some msg)).1 id =
        some { r with status := .failed, updatedAt := some st.now, errorMsg := some msg } ∧
      r.price = none) ∧
    (r.status ≠ .running →
      ∀ (price2 : CStr) (msg2 : Option String),
        markCompleted st id price2 .success none = (st, .error .invalidTransition) ∧
        markCompleted st id price2 .failed msg2 = (st, .error .invalidTransition)) := by
  rcases reachable_storeWF h with ⟨hids, hdup, hinv⟩
  rcases getByID_mem hr with ⟨hrmem, hrid⟩
  have hcimp : ∀ x : QuoteRec, completeCond id x = true → x.id = id := by
    intro x hx
    simp only [completeCond, decide_eq_true_eq] at hx
    exact hx.1
  have hfind : st.recs.find? (fun x => decide (x.id = id)) = some r := hr
  constructor
  · intro hrun
    have hcond : completeCond id r = true := by
      simp [completeCond, hrid, hrun]
    have hcount := countWhere_ne_zero_of_mem hrmem hcond
    have hprice : r.price = none := by
      rcases hinv r hrmem with ⟨hp, _⟩
      cases hpr : r.price with
      | none => rfl
      | some p =>
        exfalso
        have hsucc : r.status = .success := hp.mp (by simp [hpr])
        rw [hsucc] at hrun
        cases hrun
    refine ⟨?_, ?_, ?_, ?_, hprice⟩
    · show (markSucceeded st id price).2 = .ok ()
      unfold markSucceeded
      rw [if_neg hcount]
    · show getByID (markSucceeded st id price).1 id = _
      unfold markSucceeded
      rw [if_neg hcount]
      show (applyWhere (completeCond id) _ st.recs).find? (fun x => decide (x.id = id)) = _
      rw [find?_applyWhere (fun x => { x with status := Status.success, price := some price, updatedAt := some st.now, errorMsg := none }) hcimp (fun x => rfl), hfind]
      simp [hcond]
    · show (markFailed st id (some msg)).2 = .ok ()
      unfold markFailed
      rw [if_neg hcount]
    · show getByID (markFailed st id (some msg)).1 id = _
      unfold markFailed
      rw [if_neg hcount]
      show (applyWhere (completeCond id) _ st.recs).find? (fun x => decide (x.id = id)) = _
      rw [find?_applyWhere (fun x => { x with status := Status.failed, updatedAt := some st.now, errorMsg := some msg }) hcimp (fun x => rfl), hfind]
      simp [hcond]
  · intro hne price2 msg2
    have hcond : completeCond id r = false := by
      simp only [completeCond, decide_eq_false_iff_not]
      rintro ⟨-, hs⟩
      exact hne hs
    have hall := cond_false_everywhere hids hr hcond hcimp
    have hcount : countWhere (completeCond id) st.recs = 0 :=
      countWhere_eq_zero.mpr hall
    constructor
    · show markSucceeded st id price2 = _
      unfold markSucceeded
      rw [if_pos hcount]
    · show markFailed st id msg2 = _
      unfold markFailed
      rw [if_pos hcount]

/-- Witness for C4 at the RUNNING record of the concrete trace: completion
with SUCCESS succeeds. -/
theorem markCompleted_transitions_witness :
    (markCompleted exStore2 ("u1") (.plain "1.0850") .success none).2 = .ok () :=
  ((@markCompleted_transitions exStore2 reach_exStore2 ("u1")
      (⟨("u1"), ("USD").toList, ("EUR").toList, none, .running, none, 0, some 1⟩)
      (by decide) (.plain "1.0850") ("ignored")).1 (by decide)).1

/-! ## Claim C5 -/

theorem runCond_id {id : String} {x : QuoteRec} (hx : runCond id x = true) :
    x.id = id := by
  simp only [runCond, decide_eq_true_eq] at hx
  exact hx.1

/-- The partial unique index lets `MarkRunning` pass when no other row of
the same pair is in flight. -/
theorem markRunning_guard_ok {st : Store} (hids : idsDistinct st.recs = true)
    (hdup : noDupInFlight st.recs = true) {id : String} {r : QuoteRec}
    (hr : getByID st id = some r)
    (hcond : ∀ y ∈ st.recs, y.id ≠ r.id → isInFlight y.status = true →
      ¬(y.base = r.base ∧ y.quote = r.quote)) :
    noDupInFlight (applyWhere (runCond id)
      (fun x => { x with status := .running, updatedAt := some st.now }) st.recs) = true := by
  rcases getByID_mem hr with ⟨hrmem, hrid⟩
  have hnewids : idsDistinct (applyWhere (runCond id)
      (fun x => { x with status := .running, updatedAt := some st.now }) st.recs) = true := by
    apply idsDistinct_applyWhere _ hids
    intro x
    rfl
  rw [noDupInFlight_iff hnewids]
  have hold := (noDupInFlight_iff hids).mp hdup
  intro a ha b hb hab
  rcases List.mem_map.mp ha with ⟨x, hx, rfl⟩
  rcases List.mem_map.mp hb with ⟨y, hy, rfl⟩
  have hgid : ∀ z : QuoteRec,
      (if runCond id z then
        ({ z with status := Status.running, updatedAt := some st.now } : QuoteRec)
       else z).id = z.id := by
    intro z
    by_cases hz : runCond id z = true <;> simp [hz]
  rw [hgid x, hgid y] at hab
  by_cases hcx : runCond id x = true <;> by_cases hcy : runCond id y = true
  · exact absurd (by rw [runCond_id hcx, runCond_id hcy]) hab
  · have hxr : x = r := idsDistinct_inj hids hx hrmem (by rw [runCond_id hcx, hrid])
    simp only [hcx, if_true, hcy, if_false]
    rintro ⟨-, hyf, hbq, hqq⟩
    exact hcond y hy (by rw [← hxr]; exact (Ne.symm hab)) hyf
      ⟨by rw [← hxr]; exact hbq.symm, by rw [← hxr]; exact hqq.symm⟩
  · have hyr : y = r := idsDistinct_inj hids hy hrmem (by rw [runCond_id hcy, hrid])
    simp only [hcx, if_false, hcy, if_true]
    rintro ⟨hxf, -, hbq, hqq⟩
    exact hcond x hx (by rw [← hyr]; exact hab) hxf
      ⟨by rw [← hyr]; exact hbq, by rw [← hyr]; exact hqq⟩
  · simp only [hcx, if_false, hcy, if_false]
    exact hold x hx y hy hab

/-- C5 (amended): `MarkRunning` moves a PENDING record to RUNNING, and a
FAILED record to RUNNING exactly when no other record of the pair is in
flight — otherwise the partial unique index rejects the update; on a
RUNNING or SUCCESS record, or a missing id, it fails with the
invalid-transition error and changes nothing. -/
theorem markRunning_transitions {st : Store} (h : Reachable st) (id : String) :
    (∀ r, getByID st id = some r →
      (r.status = .pending →
        (markRunning st id).2 = .ok () ∧
        getByID (markRunning st id).1 id =
          some { r with status := .running, updatedAt := some st.now }) ∧
      (r.status = .failed → ¬ otherInFlightForPair st r →
        (markRunning st id).2 = .ok () ∧
        getByID (markRunning st id).1 id =
          some { r with status := .running, updatedAt := some st.now }) ∧
      (r.status = .failed → otherInFlightForPair st r →
        markRunning st id = (st, .error .uniqueViolation)) ∧
      ((r.status = .running ∨ r.status = .success) →
        markRunning st id = (st, .error .invalidTransition))) ∧
    (getByID st id = none → markRunning st id = (st, .error .invalidTransition)) := by
  rcases reachable_storeWF h with ⟨hids, hdup, hinv⟩
  constructor
  · intro r hr
    rcases getByID_mem hr with ⟨hrmem, hrid⟩
    have hfind : st.recs.find? (fun x => decide (x.id = id)) = some r := hr
    have hokCase : ∀ hcnd : ∀ y ∈ st.recs, y.id ≠ r.id → isInFlight y.status = true →
        ¬(y.base = r.base ∧ y.quote = r.quote),
        runCond id r = true →
        (markRunning st id).2 = .ok () ∧
        getByID (markRunning st id).1 id =
          some { r with status := .running, updatedAt := some st.now } := by
      intro hcnd hcond
      have hcount := countWhere_ne_zero_of_mem hrmem hcond
      have hguard := markRunning_guard_ok hids hdup hr hcnd
      constructor
      · unfold markRunning
        rw [if_neg hcount, if_pos hguard]
      · unfold markRunning
        rw [if_neg hcount, if_pos hguard]
        show (applyWhere (runCond id) _ st.recs).find? (fun x => decide (x.id = id)) = _
        rw [find?_applyWhere (fun x => { x with status := Status.running, updatedAt := some st.now }) (fun x hx => runCond_id hx) (fun x => rfl), hfind]
        simp [hcond]
    refine ⟨?_, ?_, ?_, ?_⟩
    · intro hpend
      refine hokCase ?_ (by simp [runCond, hrid, hpend])
      intro y hy hyne hyf
      have := (noDupInFlight_iff hids).mp hdup r hrmem y hy (fun hc => hyne hc.symm)
      intro ⟨hb, hq⟩
      exact this ⟨by rw [hpend]; rfl, hyf, hb.symm, hq.symm⟩
    · intro hfail hno
      refine hokCase ?_ (by simp [runCond, hrid, hfail])
      intro y hy hyne hyf hpair
      exact hno ⟨y, hy, hyne, hpair.1, hpair.2, hyf⟩
    · intro hfail hother
      rcases hother with ⟨y, hy, hyne, hyb, hyq, hyf⟩
      have hcond : runCond id r = true := by simp [runCond, hrid, hfail]
      have hcount := countWhere_ne_zero_of_mem hrmem hcond
      have hguard : ¬ noDupInFlight (applyWhere (runCond id)
          (fun x => { x with status := .running, updatedAt := some st.now }) st.recs) = true := by
        intro hdup2
        have hnewids : idsDistinct (applyWhere (runCond id)
            (fun x => { x with status := .running, updatedAt := some st.now }) st.recs) = true := by
          apply idsDistinct_applyWhere _ hids
          intro x
          rfl
        have hall := (noDupInFlight_iff hnewids).mp hdup2
        have hgr : (if runCond id r then
            ({ r with status := Status.running, updatedAt := some st.now } : QuoteRec)
            else r) = { r with status := Status.running, updatedAt := some st.now } := by
          rw [if_pos hcond]
        have hgy : (if runCond id y then
            ({ y with status := Status.running, updatedAt := some st.now } : QuoteRec)
            else y) = y := by
          have : runCond id y = false := by
            rw [Bool.eq_false_iff]
            intro hyc
            exact hyne (by rw [runCond_id hyc, hrid])
          rw [this]
          simp
        have hamem : ({ r with status := Status.running, updatedAt := some st.now } : QuoteRec)
            ∈ applyWhere (runCond id)
              (fun x => { x with status := .running, updatedAt := some st.now }) st.recs := by
          rw [← hgr]
          exact List.mem_map_of_mem _ hrmem
        have hbmem : y ∈ applyWhere (runCond id)
            (fun x => { x with status := .running, updatedAt := some st.now }) st.recs := by
          rw [← hgy]
          exact List.mem_map_of_mem _ hy
        have := hall _ hamem y hbmem (fun hc => hyne (by simpa using hc.symm))
        exact this ⟨rfl, hyf, hyb.symm, hyq.symm⟩
      unfold markRunning
      rw [if_neg hcount, if_neg hguard]
    · intro hrs
      have hcond : runCond id r = false := by
        rw [Bool.eq_false_iff]
        intro hc
        simp only [runCond, decide_eq_true_eq] at hc
        rcases hrs with hs | hs <;> rcases hc.2 with h2 | h2 <;>
          simp [hs] at h2
      have hall := cond_false_everywhere hids hr hcond (fun x hx => runCond_id hx)
      have hcount : countWhere (runCond id) st.recs = 0 := countWhere_eq_zero.mpr hall
      unfold markRunning
      rw [if_pos hcount]
  · intro hnone
    have hall : ∀ x ∈ st.recs, runCond id x = false := by
      intro x hx
      rw [Bool.eq_false_iff]
      intro hc
      exact getByID_eq_none.mp hnone x hx (runCond_id hc)
    have hcount : countWhere (runCond id) st.recs = 0 := countWhere_eq_zero.mpr hall
    unfold markRunning
    rw [if_pos hcount]

/-- C5 counterexample: in the reachable state with `u1` FAILED and a second
PENDING record `u2` for the same pair, `MarkRunning("u1")` does *not*
transition the FAILED record — the partial unique index rejects the update —
refuting "transitions exactly when PENDING or FAILED". -/
theorem markRunning_failed_blocked :
    Reachable exStore4 ∧
    (getByID exStore4 ("u1")).map (fun r => r.status) = some .failed ∧
    markRunning exStore4 ("u1") = (exStore4, .error .uniqueViolation) :=
  ⟨reach_exStore4, by decide, by decide⟩

/-- Witness for C5 at the PENDING record of the concrete trace. -/
theorem markRunning_transitions_witness :
    (markRunning exStore1 ("u1")).2 = .ok () :=
  (((markRunning_transitions reach_exStore1 ("u1")).1
      (⟨("u1"), ("USD").toList, ("EUR").toList, none, .pending, none, 0, none⟩)
      (by decide)).1 (by decide)).1

/-! ## Claim C3 -/

/-- C3 (amended): in every reachable store, PENDING and SUCCESS records
carry no error message — equivalently, a stored error message implies the
record is FAILED *or RUNNING*: `MarkRunning` does not clear the `error`
column, so a FAILED → RUNNING retry retains the previous failure's
message. -/
theorem error_only_on_failed_or_retry {st : Store} (h : Reachable st) :
    ∀ r ∈ st.recs,
      ((r.status = .pending ∨ r.status = .success) → r.errorMsg = none) ∧
      (r.errorMsg.isSome = true → r.status = .failed ∨ r.status = .running) := by
  intro r hr
  rcases reachable_storeWF h with ⟨-, -, hinv⟩
  have h1 := (hinv r hr).2
  refine ⟨h1, ?_⟩
  intro hsome
  cases hs : r.status with
  | pending =>
    rw [h1 (Or.inl hs)] at hsome
    cases hsome
  | success =>
    rw [h1 (Or.inr hs)] at hsome
    cases hsome
  | failed => exact Or.inl rfl
  | running => exact Or.inr rfl

/-- C3 counterexample: after the FAILED → RUNNING retry of the concrete
trace, the RUNNING record still stores the previous attempt's error
message, refuting "error present iff status = FAILED". -/
theorem running_record_keeps_error :
    Reachable (markRunning exStore3 ("u1")).1 ∧
    (getByID (markRunning exStore3 ("u1")).1 ("u1")).map
        (fun r => (r.status, r.errorMsg)) =
      some (.running, some ("provider down")) :=
  ⟨Reachable.step reach_exStore3 (Step.run _ _), by decide⟩

/-- Witness for C3 at the PENDING record of the concrete trace. -/
theorem error_only_on_failed_or_retry_witness :
    (⟨("u1"), ("USD").toList, ("EUR").toList, none, .pending, none, 0, none⟩ : QuoteRec).errorMsg = none :=
  (error_only_on_failed_or_retry reach_exStore1
      (⟨("u1"), ("USD").toList, ("EUR").toList, none, .pending, none, 0, none⟩)
      (by decide)).1 (Or.inl rfl)

/-! ## Claim C1 -/

/-- C1: when `CreateUpdate` inserts the fresh PENDING record and the task
enqueue then fails, `RequestQuoteUpdate` surfaces the queue error — but the
"immediate FAILED transition" is a silent no-op, because the repository's
`markFailed` guard (`WHERE status = RUNNING`) cannot match the fresh
PENDING row: the record's stored status remains PENDING, not FAILED. -/
theorem requestQuoteUpdate_enqueue_failure :
    (requestQuoteUpdate exStore0 (("USD/EUR").toList) ("u1") false).2 =
      .error .internalQueue ∧
    (getByID (requestQuoteUpdate exStore0 (("USD/EUR").toList) ("u1") false).1
        ("u1")).map (fun r => r.status) = some .pending := by
  decide

/-! ## Claim C6 -/

/-- C6 counterexample: `ProcessUpdate` on a malformed pair (base `"US"`)
returns the format error without calling the provider and without touching
the store at all — the PENDING record is not transitioned to FAILED. -/
theorem processUpdate_malformed_no_transition :
    Reachable exStore1 ∧
    processUpdate exStore1 (some []) ("u1") (("US").toList) (("EUR").toList)
        (.ok (.plain "1.1", 5)) =
      (exStore1, some [], some .invalidPairFormat, false) ∧
    (getByID exStore1 ("u1")).map (fun r => r.status) = some .pending :=
  ⟨reach_exStore1, by decide, by decide⟩

/-- C6 (amended): `ProcessUpdate` short-circuits on every invalid pair
without calling the provider; on malformed codes it returns immediately
with no store mutation; on unsupported currencies it attempts a best-effort
`MarkCompleted(FAILED)` whose RUNNING guard leaves any non-RUNNING record
(in particular the usual PENDING one) unchanged. -/
theorem processUpdate_invalid_shortcircuit {st : Store} (h : Reachable st)
    (cache : Option LatestCache) (id : String) (base quote : GoStr)
    (provRes : Except String (CStr × Nat)) :
    (normalizePair base quote = .error .invalidPairFormat →
      processUpdate st cache id base quote provRes =
        (st, cache, some .invalidPairFormat, false)) ∧
    (∀ b q, normalizePair base quote = .ok (b, q) →
      validatePair b q = .error .unsupportedCurrency →
      (processUpdate st cache id base quote provRes).2.2.2 = false ∧
      (processUpdate st cache id base quote provRes).2.2.1 =
        some .unsupportedCurrency ∧
      (processUpdate st cache id base quote provRes).1 =
        (markFailed st id (some ("unsupported currency"))).1 ∧
      (∀ r, getByID st id = some r → r.status ≠ .running →
        (processUpdate st cache id base quote provRes).1 = st)) := by
  rcases reachable_storeWF h with ⟨hids, -, -⟩
  constructor
  · intro hn
    unfold processUpdate
    rw [hn]
  · intro b q hn hv
    have hres : processUpdate st cache id base quote provRes =
        ((markFailed st id (some ("unsupported currency"))).1, cache,
          some .unsupportedCurrency, false) := by
      unfold processUpdate
      simp only [hn, hv, svcErrMsg]
      rfl
    refine ⟨by rw [hres], by rw [hres], by rw [hres], ?_⟩
    intro r hr hne
    rw [hres]
    have hcond : completeCond id r = false := by
      simp only [completeCond, decide_eq_false_iff_not]
      rintro ⟨-, hs⟩
      exact hne hs
    have hall := cond_false_everywhere hids hr hcond
      (fun x hx => by simp only [completeCond, decide_eq_true_eq] at hx; exact hx.1)
    have hcount : countWhere (completeCond id) st.recs = 0 :=
      countWhere_eq_zero.mpr hall
    show (markFailed st id (some ("unsupported currency"))).1 = st
    unfold markFailed
    rw [if_pos hcount]

/-- Witness for C6 at the unsupported pair ZZZ/EUR on the PENDING record of
the concrete trace: the store is untouched. -/
theorem processUpdate_invalid_shortcircuit_witness :
    (processUpdate exStore1 (some []) ("u1") (("ZZZ").toList) (("EUR").toList)
        (.ok (.plain "1.1", 5))).1 = exStore1 :=
  ((processUpdate_invalid_shortcircuit reach_exStore1 (some []) ("u1")
      (("ZZZ").toList) (("EUR").toList) (.ok (.plain "1.1", 5))).2
      (("ZZZ").toList) (("EUR").toList) (by decide) (by decide)).2.2.2
    (⟨("u1"), ("USD").toList, ("EUR").toList, none, .pending, none, 0, none⟩)
    (by decide) (by decide)

/-! ## Claim C7 -/

theorem ofNat_sub32_upper_range {n : Nat} (h1 : 65 ≤ n) (h2 : n ≤ 90) :
    'A' ≤ Char.ofNat n ∧ Char.ofNat n ≤ 'Z' := by
  have hval : n.isValidChar := Or.inl (by omega)
  have hv : (Char.ofNat n).toNat = n := by
    rw [Char.ofNat, dif_pos hval]
    simp [Char.ofNatAux, Char.toNat, UInt32.toNat]
  have hA : ('A').toNat = 65 := by decide
  have hZ : ('Z').toNat = 90 := by decide
  simp only [Char.toNat, UInt32.toNat] at hv hA hZ
  constructor
  · simp only [Char.le_def, UInt32.le_def, BitVec.le_def]
    omega
  · simp only [Char.le_def, UInt32.le_def, BitVec.le_def]
    omega

/-- A character uppercases into `A`–`Z` exactly when it is an ASCII letter
or one of the two exotic code points. -/
theorem goToUpperChar_range_iff (c : Char) :
    ('A' ≤ goToUpperChar c ∧ goToUpperChar c ≤ 'Z') ↔
      (isAsciiLetter c ∨ isExoticChar c) := by
  unfold goToUpperChar
  by_cases h1 : 'a' ≤ c ∧ c ≤ 'z'
  · rw [if_pos h1]
    have hlow : 97 ≤ c.toNat ∧ c.toNat ≤ 122 := by
      constructor
      · simpa only [Char.le_def, UInt32.le_def, BitVec.le_def] using h1.1
      · simpa only [Char.le_def, UInt32.le_def, BitVec.le_def] using h1.2
    constructor
    · intro _
      exact Or.inl (Or.inr h1)
    · intro _
      exact ofNat_sub32_upper_range (by omega) (by omega)
  · rw [if_neg h1]
    by_cases h2 : c = dotlessI
    · rw [if_pos h2]
      constructor
      · intro _
        exact Or.inr (Or.inl h2)
      · intro _
        decide
    · rw [if_neg h2]
      by_cases h3 : c = longS
      · rw [if_pos h3]
        constructor
        · intro _
          exact Or.inr (Or.inr h3)
        · intro _
          decide
      · rw [if_neg h3]
        constructor
        · intro h
          exact Or.inl (Or.inl h)
        · intro h
          rcases h with hup | hlow2
          · rcases hup with hup | hlow3
            · exact hup
            · exact absurd hlow3 h1
          · rcases hlow2 with hd | hl
            · exact absurd hd h2
            · exact absurd hl h3

theorem utf8Size_of_asciiLetter {c : Char} (h : isAsciiLetter c) :
    c.utf8Size = 1 := by
  have hv : c.val ≤ (0x7F : UInt32) := by
    rcases h with ⟨-, h2⟩ | ⟨-, h2⟩
    · exact UInt32.le_trans h2 (by decide)
    · exact UInt32.le_trans h2 (by decide)
  simp [Char.utf8Size, hv]

theorem utf8Size_of_exotic {c : Char} (h : isExoticChar c) :
    c.utf8Size = 2 := by
  rcases h with rfl | rfl <;> decide

/-- ASCII-letter strings have as many bytes as characters. -/
theorem utf8Len_of_ascii {code : GoStr} (h : ∀ c ∈ code, isAsciiLetter c) :
    utf8Len code = code.length := by
  induction code with
  | nil => rfl
  | cons c t ih =>
    have hc := utf8Size_of_asciiLetter (h c (List.mem_cons_self c t))
    have ht := ih (fun x hx => h x (List.mem_cons_of_mem c hx))
    simp only [utf8Len, List.map_cons, List.sum_cons, hc, List.length_cons]
    simp only [utf8Len] at ht
    omega

theorem isValidCurrencyCode_iff_allowed {code : GoStr} :
    isValidCurrencyCode code = true ↔
      utf8Len code = 3 ∧ ∀ c ∈ code, isAsciiLetter c ∨ isExoticChar c := by
  unfold isValidCurrencyCode
  by_cases hlen : utf8Len code = 3
  · rw [if_neg (fun hc => hc hlen)]
    simp only [goToUpper, List.all_eq_true, List.mem_map, decide_eq_true_eq]
    constructor
    · intro hall
      refine ⟨hlen, ?_⟩
      intro c hc
      exact (goToUpperChar_range_iff c).mp (hall (goToUpperChar c) ⟨c, hc, rfl⟩)
    · rintro ⟨-, hall⟩ x ⟨c, hc, rfl⟩
      exact (goToUpperChar_range_iff c).mpr (hall c hc)
  · rw [if_pos hlen]
    simp [hlen]

/-- Only two shapes fit three UTF-8 bytes of accepted characters. -/
theorem allowed_shape {code : GoStr} (hlen : utf8Len code = 3)
    (hall : ∀ c ∈ code, isAsciiLetter c ∨ isExoticChar c) :
    specValid3Letters code ∨ exoticAccepted code := by
  match code with
  | [] => simp [utf8Len] at hlen
  | [a] =>
    exfalso
    rcases hall a (by simp) with h | h
    · rw [show utf8Len [a] = a.utf8Size by simp [utf8Len],
        utf8Size_of_asciiLetter h] at hlen
      cases hlen
    · rw [show utf8Len [a] = a.utf8Size by simp [utf8Len],
        utf8Size_of_exotic h] at hlen
      cases hlen
  | [a, b] =>
    have hab : utf8Len [a, b] = a.utf8Size + b.utf8Size := by
      simp [utf8Len]
    rcases hall a (by simp) with ha | ha <;> rcases hall b (by simp) with hb | hb
    · exfalso
      rw [hab, utf8Size_of_asciiLetter ha, utf8Size_of_asciiLetter hb] at hlen
      cases hlen
    · exact Or.inr ⟨a, b, rfl, Or.inr ⟨ha, hb⟩⟩
    · exact Or.inr ⟨a, b, rfl, Or.inl ⟨ha, hb⟩⟩
    · exfalso
      rw [hab, utf8Size_of_exotic ha, utf8Size_of_exotic hb] at hlen
      cases hlen
  | [a, b, c] =>
    left
    refine ⟨rfl, ?_⟩
    have hsum : a.utf8Size + b.utf8Size + c.utf8Size = 3 := by
      have : utf8Len [a, b, c] = a.utf8Size + b.utf8Size + c.utf8Size := by
        simp [utf8Len]
        omega
      omega
    intro x hx
    have hone : ∀ y ∈ [a, b, c], isAsciiLetter y := by
      intro y hy
      rcases hall y hy with h | h
      · exact h
      · exfalso
        have hy2 := utf8Size_of_exotic h
        have h1 : 1 ≤ a.utf8Size := a.utf8Size_pos
        have h2 : 1 ≤ b.utf8Size := b.utf8Size_pos
        have h3 : 1 ≤ c.utf8Size := c.utf8Size_pos
        have hye : y = a ∨ y = b ∨ y = c := by simpa using hy
        rcases hye with rfl | rfl | rfl <;> omega
    exact hone x hx
  | a :: b :: c :: d :: rest =>
    exfalso
    have h1 : 1 ≤ a.utf8Size := a.utf8Size_pos
    have h2 : 1 ≤ b.utf8Size := b.utf8Size_pos
    have h3 : 1 ≤ c.utf8Size := c.utf8Size_pos
    have h4 : 1 ≤ d.utf8Size := d.utf8Size_pos
    have : utf8Len (a :: b :: c :: d :: rest) =
        a.utf8Size + b.utf8Size + c.utf8Size + d.utf8Size + utf8Len rest := by
      simp [utf8Len]
      omega
    rw [this] at hlen
    omega

/-- C7 (amended): the format check accepts a code exactly when it is three
ASCII letters *or* a two-character string pairing one of the exotic code
points ı (U+0131) / ſ (U+017F) with an ASCII letter (three UTF-8 bytes whose
Unicode uppercase lands in `A`–`Z`); every accepted code uppercases to
`A`–`Z` characters. -/
theorem isValidCurrencyCode_characterization (code : GoStr) :
    (isValidCurrencyCode code = true ↔
      (specValid3Letters code ∨ exoticAccepted code)) ∧
    (isValidCurrencyCode code = true →
      ∀ c ∈ goToUpper code, 'A' ≤ c ∧ c ≤ 'Z') := by
  constructor
  · constructor
    · intro h
      rcases isValidCurrencyCode_iff_allowed.mp h with ⟨hlen, hall⟩
      exact allowed_shape hlen hall
    · intro h
      apply isValidCurrencyCode_iff_allowed.mpr
      rcases h with ⟨hlen, hall⟩ | ⟨x, y, rfl, hxy⟩
      · refine ⟨?_, fun c hc => Or.inl (hall c hc)⟩
        rw [utf8Len_of_ascii hall, hlen]
      · rcases hxy with ⟨hx, hy⟩ | ⟨hx, hy⟩
        · refine ⟨?_, ?_⟩
          · rw [show utf8Len [x, y] = x.utf8Size + y.utf8Size by simp [utf8Len],
              utf8Size_of_exotic hx, utf8Size_of_asciiLetter hy]
          · intro c hc
            rcases List.mem_cons.mp hc with rfl | hc2
            · exact Or.inr hx
            · rcases List.mem_singleton.mp hc2 with rfl
              exact Or.inl hy
        · refine ⟨?_, ?_⟩
          · rw [show utf8Len [x, y] = x.utf8Size + y.utf8Size by simp [utf8Len],
              utf8Size_of_asciiLetter hx, utf8Size_of_exotic hy]
          · intro c hc
            rcases List.mem_cons.mp hc with rfl | hc2
            · exact Or.inl hx
            · rcases List.mem_singleton.mp hc2 with rfl
              exact Or.inr hy
  · intro h c hc
    unfold isValidCurrencyCode at h
    by_cases hlen : utf8Len code = 3
    · rw [if_neg (fun hc2 => hc2 hlen)] at h
      have := List.all_eq_true.mp h c hc
      simpa using this
    · rw [if_pos hlen] at h
      cases h

/-- C7 counterexample: the two-character string `"ıa"` (dotless ı followed
by `a`, three UTF-8 bytes) passes `IsValidCurrencyCode` although it is not
three ASCII letters. -/
theorem currencyCode_nonAscii_accepted :
    isValidCurrencyCode [dotlessI, ('a')] = true ∧
      ¬ specValid3Letters [dotlessI, ('a')] := by
  constructor
  · decide
  · intro h
    cases h.1

/-- Witness for C7: `"usd"` is three ASCII letters, hence accepted. -/
theorem isValidCurrencyCode_characterization_witness :
    isValidCurrencyCode (("usd").toList) = true :=
  (isValidCurrencyCode_characterization (("usd").toList)).1.mpr
    (Or.inl (by constructor <;> decide))

/-! ## Claim C8 -/

/-- C8 counterexample: `NewExchangeProviderFacade` performs no arity check —
applied to zero sources it still constructs a facade, whose provider list is
empty and whose `GetRate` has nothing to call, returning the empty
aggregate error. -/
theorem facade_empty_constructs :
    (newExchangeProviderFacade ([] : List (Except String (CStr × Nat)))).providers = [] ∧
    facadeGetRate (newExchangeProviderFacade []) = .error [] :=
  ⟨rfl, rfl⟩

/-- C8 (amended): the zero-sources rejection lives one level up, in the
application's `newRateProvider`: with no correctly configured source it
fails construction, and whenever it succeeds the provider it returns (a
single source, or a facade only when two are configured) has a non-empty
source list — so in the application the facade never exists with nothing to
call. -/
theorem newRateProvider_requires_sources (cfg : ProvidersConfig) :
    ((¬(cfg.erhBaseURL ≠ "" ∧ cfg.erhAPIKey ≠ "") ∧ cfg.frankBaseURL = "") →
      newRateProvider cfg =
        .error ("no exchange rate providers are correctly configured")) ∧
    (∀ choice, newRateProvider cfg = .ok choice → choiceSources choice ≠ []) ∧
    (∀ ss, newRateProvider cfg = .ok (.facade ss) → ss.length = 2) := by
  unfold newRateProvider
  by_cases h1 : cfg.erhBaseURL ≠ "" ∧ cfg.erhAPIKey ≠ ""
  · rw [if_pos h1]
    by_cases h2 : cfg.frankBaseURL ≠ ""
    · rw [if_pos h2]
      refine ⟨fun hc => absurd h1 hc.1, ?_, ?_⟩
      · intro choice hch
        cases hch
        simp [choiceSources]
      · intro ss hss
        cases hss
        rfl
    · rw [if_neg h2]
      refine ⟨fun hc => absurd h1 hc.1, ?_, ?_⟩
      · intro choice hch
        cases hch
        simp [choiceSources]
      · intro ss hss
        cases hss
  · rw [if_neg h1]
    by_cases h2 : cfg.frankBaseURL ≠ ""
    · rw [if_pos h2]
      refine ⟨fun hc => absurd hc.2 h2, ?_, ?_⟩
      · intro choice hch
        cases hch
        simp [choiceSources]
      · intro ss hss
        cases hss
    · rw [if_neg h2]
      refine ⟨fun _ => rfl, ?_, ?_⟩
      · intro choice hch
        cases hch
      · intro ss hss
        cases hss

/-- Witness for C8: the fully unconfigured application fails provider
construction. -/
theorem newRateProvider_requires_sources_witness :
    newRateProvider { erhBaseURL := "", erhAPIKey := "", frankBaseURL := "" } =
      .error ("no exchange rate providers are correctly configured") :=
  (newRateProvider_requires_sources
      { erhBaseURL := "", erhAPIKey := "", frankBaseURL := "" }).1
    ⟨by simp, rfl⟩

/-! ## Claim C9 -/

/-- C9: the per-source cache decorator serves a live, decodable entry
without calling the wrapped source; on a miss it calls the source, and only
on success stores the result with the configured TTL — the freshly written
entry round-trips, so any call within the TTL window is served from cache —
while a failure is returned as-is with the cache untouched, so the very
next call calls the source again (no negative caching). -/
theorem cachedGetRate_spec (c : SrcCache) (now now2 : Nat) (k : SKey)
    (ttl : Nat) :
    (∀ hit provRes, srcCacheHit c now k = some hit →
      cachedGetRate c now k ttl provRes = (.ok hit, c, false)) ∧
    (srcCacheHit c now k = none →
      (∀ msg, cachedGetRate c now k ttl (.error msg) = (.error msg, c, true)) ∧
      (∀ p t, cachedGetRate c now k ttl (.ok (p, t)) =
          (.ok (p, t), upsertSrc c k { price := .str p, updatedAt := .str (formatRFC3339 t), expiresAt := now + ttl }, true) ∧
        (now2 < now + ttl → ∀ provRes2,
          cachedGetRate (upsertSrc c k { price := .str p, updatedAt := .str (formatRFC3339 t), expiresAt := now + ttl }) now2 k ttl provRes2 =
            (.ok (p, t), upsertSrc c k { price := .str p, updatedAt := .str (formatRFC3339 t), expiresAt := now + ttl }, false)))) := by
  refine ⟨?_, ?_⟩
  · intro hit provRes hhit
    unfold cachedGetRate
    rw [hhit]
  · intro hmiss
    refine ⟨?_, ?_⟩
    · intro msg
      unfold cachedGetRate
      rw [hmiss]
    · intro p t
      refine ⟨?_, ?_⟩
      · unfold cachedGetRate
        rw [hmiss]
      · intro hlt provRes2
        have hhit2 : srcCacheHit (upsertSrc c k
            { price := .str p, updatedAt := .str (formatRFC3339 t), expiresAt := now + ttl }) now2 k = some (p, t) := by
          unfold srcCacheHit liveSrcEntry upsertSrc
          rw [List.find?_cons_of_pos _ (by simp [hlt])]
          rfl
        unfold cachedGetRate
        rw [hhit2]

/-- Witness for C9 on the empty cache: a miss calls the source and caches
its successful answer with the TTL. -/
theorem cachedGetRate_spec_witness :
    cachedGetRate ([] : SrcCache) 0 (("p"), ("USD").toList, ("EUR").toList) 10
        (.ok (.plain "0.85", 2)) =
      (.ok (.plain "0.85", 2),
        upsertSrc [] (("p"), ("USD").toList, ("EUR").toList)
          { price := .str (.plain "0.85"), updatedAt := .str (formatRFC3339 2), expiresAt := 10 },
        true) :=
  (((cachedGetRate_spec [] 0 5 (("p"), ("USD").toList, ("EUR").toList) 10).2
      rfl).2 (.plain "0.85") 2).1

/-! ## Claim C10 -/

/-- A degraded cache state reads as a miss. -/
theorem degraded_cacheGetLatest_none {cache : Option LatestCache}
    {b q : GoStr} (h : degradedCache cache b q) :
    cacheGetLatest cache b q = none := by
  rcases h with rfl | ⟨c, rfl, hc⟩
  · rfl
  · show (match lookupLatest c b q with
      | none => none
      | some e =>
        match e.price, e.updatedAt with
        | some v0, some v1 =>
          match asString v0, asString v1 with
          | some price, some ts =>
            match parseRFC3339 ts with
            | some t =>
              some ({ id := "", base := b, quote := q, price := some price, status := Status.success, errorMsg := none, requestedAt := 0, updatedAt := some t } : QuoteRec)
            | none => none
          | _, _ => none
        | _, _ => none) = none
    rcases hc with hnone | ⟨e, he, hdeg⟩
    · rw [hnone]
    · obtain ⟨ep, eu⟩ := e
      rw [he]
      rcases hdeg with hp | hu | ⟨v, hv, hvs⟩ | ⟨v, hv, hvs⟩ | ⟨v, s, hv, hvs, hps⟩
      · cases ep with
        | none => rfl
        | some v0 => exact absurd hp (by simp)
      · cases ep with
        | none => rfl
        | some v0 =>
          cases eu with
          | none => rfl
          | some v1 => exact absurd hu (by simp)
      · cases ep with
        | none => exact absurd hv (by simp)
        | some v0 =>
          obtain rfl : v0 = v := by simpa using hv
          cases eu with
          | none => rfl
          | some v1 =>
            show (match asString v0, asString v1 with
              | some price, some ts =>
                match parseRFC3339 ts with
                | some t =>
                  some ({ id := "", base := b, quote := q, price := some price, status := Status.success, errorMsg := none, requestedAt := 0, updatedAt := some t } : QuoteRec)
                | none => none
              | _, _ => none) = none
            rw [hvs]
      · cases eu with
        | none => exact absurd hv (by simp)
        | some v1 =>
          obtain rfl : v1 = v := by simpa using hv
          cases ep with
          | none => rfl
          | some v0 =>
            show (match asString v0, asString v1 with
              | some price, some ts =>
                match parseRFC3339 ts with
                | some t =>
                  some ({ id := "", base := b, quote := q, price := some price, status := Status.success, errorMsg := none, requestedAt := 0, updatedAt := some t } : QuoteRec)
                | none => none
              | _, _ => none) = none
            cases asString v0 with
            | none => rfl
            | some s0 => rw [hvs]
      · cases eu with
        | none => exact absurd hv (by simp)
        | some v1 =>
          obtain rfl : v1 = v := by simpa using hv
          cases ep with
          | none => rfl
          | some v0 =>
            show (match asString v0, asString v1 with
              | some price, some ts =>
                match parseRFC3339 ts with
                | some t =>
                  some ({ id := "", base := b, quote := q, price := some price, status := Status.success, errorMsg := none, requestedAt := 0, updatedAt := some t } : QuoteRec)
                | none => none
              | _, _ => none) = none
            cases asString v0 with
            | none => rfl
            | some s0 =>
              rw [hvs]
              show (match parseRFC3339 s with
                | some t =>
                  some ({ id := "", base := b, quote := q, price := some s0, status := Status.success, errorMsg := none, requestedAt := 0, updatedAt := some t } : QuoteRec)
                | none => none) = none
              rw [hps]

/-- C10: for a valid pair, every absent or degraded latest-quote cache state
(missing entry or field, non-string value, unparseable timestamp) is treated
as a miss and the answer comes from the store's `GetLatestSuccess`; and no
cache content can make `GetLatestQuote` return an error the store path would
not produce. -/
theorem getLatestQuote_cache_robust (st : Store) {base quote b q : GoStr}
    (hn : normalizePair base quote = .ok (b, q))
    (hv : validatePair b q = .ok ()) :
    (∀ cache, degradedCache cache b q →
      (getLatestQuote st cache base quote).1 = latestFromStore st b q) ∧
    (∀ cache e, (getLatestQuote st cache base quote).1 = .error e →
      latestFromStore st b q = .error e) := by
  constructor
  · intro cache hdeg
    unfold getLatestQuote
    simp only [hn, hv]
    rw [degraded_cacheGetLatest_none hdeg]
    unfold latestFromStore
    cases hgs : getLatestSuccess st b q <;> simp [hgs]
  · intro cache e herr
    unfold getLatestQuote at herr
    simp only [hn, hv] at herr
    cases hcg : cacheGetLatest cache b q with
    | some qr =>
      rw [hcg] at herr
      cases herr
    | none =>
      rw [hcg] at herr
      cases hgs : getLatestSuccess st b q with
      | none =>
        rw [hgs] at herr
        unfold latestFromStore
        rw [hgs]
        exact herr
      | some qr =>
        rw [hgs] at herr
        cases herr

/-- Witness for C10 on the empty store with a nil cache client: the answer
is the store's (not-found) answer. -/
theorem getLatestQuote_cache_robust_witness :
    (getLatestQuote exStore0 none (("USD").toList) (("EUR").toList)).1 =
      latestFromStore exStore0 (("USD").toList) (("EUR").toList) :=
  (getLatestQuote_cache_robust exStore0
      (by decide : normalizePair (("USD").toList) (("EUR").toList) =
        .ok ((("USD").toList), (("EUR").toList)))
      (by decide)).1 none (Or.inl rfl)

end QuoteSvc
